import Mathlib

/-! PandaWiki cache: the in-process store and the composite primitives

A shallow embedding of `backend/store/cache/redis.go`, and of the comma checks
of `backend/repo/pg/sql_test.go` and `backend/test/sql_validator.go`.

* Go maps are association lists read through `GoMap.lookup`; `GoMap.store`
  is `m[k] = v`, `GoMap.delete` is `delete(m, k)`, `GoMap.keys` is the key
  set a `range` loop walks.
* `time.Time` is an integer count of nanoseconds, `time.Duration` an integer
  number of nanoseconds, `time.Now()` is the argument `now` of the call (the
  clock reads of one critical section are one instant).
* The mutex is not modelled: calls are serialized.
* `*redis.StringCmd`, `*redis.IntCmd`, ... are the command objects of the
  go-redis client: a value field and an error field, read back by `Result`,
  `Val` and `Err`. The composite literal `&redis.StringCmd{}` of the source is
  the record with every field at its zero value.
-/

set_option linter.unusedVariables false

namespace PandaWiki

/-! ## Go maps with string keys -/

/-- A Go `map[string]α`. -/
abbrev GoMap (α : Type) := List (String × α)

namespace GoMap

/-- The read `v, ok := m[k]`: `some v` when `ok`, `none` otherwise. -/
def lookup {α : Type} (m : GoMap α) (k : String) : Option α :=
  match m with
  | [] => none
  | (k', v) :: rest => if k' = k then some v else lookup rest k

/-- The statement `delete(m, k)`. -/
def delete {α : Type} (m : GoMap α) (k : String) : GoMap α :=
  m.filter (fun p => decide (p.1 ≠ k))

/-- The assignment `m[k] = v`. -/
def store {α : Type} (m : GoMap α) (k : String) (v : α) : GoMap α :=
  (k, v) :: delete m k

/-- The keys a `for key := range m` loop visits. -/
def keys {α : Type} (m : GoMap α) : List String :=
  (m.map Prod.fst).dedup

end GoMap

/-! ## Time, values, errors and command objects -/

/-- An instant (`time.Time`), in nanoseconds. -/
abbrev Time := Int

/-- A `time.Duration`, in nanoseconds. -/
abbrev Duration := Int

/-- The constant `time.Second`. -/
def Second : Duration := 1000000000

/-- The dynamic values passed as `value interface{}`. -/
inductive Value where
  | str (s : String)
  | int (n : Int)
  | bool (b : Bool)
  deriving DecidableEq, Repr

/-- The formatting `fmt.Sprintf("%v", value)`. -/
def sprintV : Value → String
  | .str s => s
  | .int n => toString n
  | .bool b => if b then "true" else "false"

/-- Go `error` values; `redisNil` is the sentinel `redis.Nil`. -/
inductive Error where
  | redisNil
  | other (msg : String)
  deriving DecidableEq, Repr

/-- The command `redis.StringCmd`. -/
structure StringCmd where
  val : String := ""
  err : Option Error := none
  deriving DecidableEq, Repr

/-- The method `(*redis.StringCmd).Result`. -/
def StringCmd.Result (c : StringCmd) : String × Option Error := (c.val, c.err)

/-- The command `redis.StatusCmd`. -/
structure StatusCmd where
  val : String := ""
  err : Option Error := none
  deriving DecidableEq, Repr

/-- The method `(*redis.StatusCmd).Err`. -/
def StatusCmd.Err (c : StatusCmd) : Option Error := c.err

/-- The command `redis.IntCmd`. -/
structure IntCmd where
  val : Int := 0
  err : Option Error := none
  deriving DecidableEq, Repr

/-- The method `(*redis.IntCmd).Result`. -/
def IntCmd.Result (c : IntCmd) : Int × Option Error := (c.val, c.err)

/-- The method `(*redis.IntCmd).Err`. -/
def IntCmd.Err (c : IntCmd) : Option Error := c.err

/-- The command `redis.ScanCmd`: a page of keys and the next cursor. -/
structure ScanCmd where
  page : List String := []
  cursor : Nat := 0
  err : Option Error := none
  deriving DecidableEq, Repr

/-- The method `(*redis.ScanCmd).Result`. -/
def ScanCmd.Result (c : ScanCmd) : List String × Nat × Option Error :=
  (c.page, c.cursor, c.err)

/-- The command `redis.BoolCmd`. -/
structure BoolCmd where
  val : Bool := false
  err : Option Error := none
  deriving DecidableEq, Repr

/-- The method `(*redis.BoolCmd).Result`. -/
def BoolCmd.Result (c : BoolCmd) : Bool × Option Error := (c.val, c.err)

/-- The command `redis.MapStringStringCmd`. -/
structure MapStringStringCmd where
  val : GoMap String := []
  err : Option Error := none
  deriving DecidableEq, Repr

/-- The method `(*redis.MapStringStringCmd).Result`. -/
def MapStringStringCmd.Result (c : MapStringStringCmd) : GoMap String × Option Error :=
  (c.val, c.err)

/-! ## The in-process store -/

/-- The struct `MockCache` (its mutex left out). -/
structure MockCache where
  data : GoMap String
  exp : GoMap Time
  hashMap : GoMap (GoMap String)
  deriving DecidableEq, Repr

/-- The constructor `newMockCache`. -/
def newMockCache : MockCache := { data := [], exp := [], hashMap := [] }

/-- The test `len(key) >= len(p) && key[:len(p)] == p` of `Scan` and
`DeleteKeysWithPrefix`. -/
def hasPrefix (key p : String) : Bool :=
  decide (key.length ≥ p.length) && decide (key.data.take p.length = p.data)

namespace MockCache

/-- The method `MockCache.Get`, called at instant `now`. -/
def Get (mc : MockCache) (now : Time) (key : String) : MockCache × StringCmd :=
  match mc.data.lookup key with
  | some _ =>
    match mc.exp.lookup key with
    | none => (mc, {})
    | some exp =>
      if now < exp then (mc, {})
      else ({ mc with data := mc.data.delete key, exp := mc.exp.delete key }, {})
  | none => (mc, {})

/-- The method `MockCache.Set`, called at instant `now`. -/
def Set (mc : MockCache) (now : Time) (key : String) (value : Value)
    (expiration : Duration) : MockCache × StatusCmd :=
  let data := mc.data.store key (sprintV value)
  if expiration > 0 then
    ({ mc with data := data, exp := mc.exp.store key (now + expiration) }, {})
  else
    ({ mc with data := data, exp := mc.exp.delete key }, {})

/-- The method `MockCache.GetOrSet`: `nowGet` is the instant of its `Get`,
`nowSet` the instant of its `Set`. -/
def GetOrSet (mc : MockCache) (nowGet nowSet : Time) (key : String) (value : Value)
    (expiration : Duration) : MockCache × Value × Option Error :=
  let (mc1, cmd) := mc.Get nowGet key
  let (val, err) := cmd.Result
  if err = some Error.redisNil ∨ val = "" then
    ((mc1.Set nowSet key value expiration).1, value, none)
  else
    (mc1, Value.str val, err)

/-- The method `MockCache.Del`: the loop counts the deleted keys in the local
`count`, and the command returned is `&redis.IntCmd{}`. The result is the new
store, the final value of `count`, and the command. -/
def Del (mc : MockCache) (keys : List String) : MockCache × Nat × IntCmd :=
  let r := keys.foldl
    (fun (acc : MockCache × Nat) key =>
      match acc.1.data.lookup key with
      | some _ =>
        ({ acc.1 with data := acc.1.data.delete key, exp := acc.1.exp.delete key }, acc.2 + 1)
      | none => acc)
    (mc, 0)
  (r.1, r.2, {})

/-- The method `MockCache.Scan`: the loop collects the matching keys in the
local `matchingKeys`, and the command returned is `&redis.ScanCmd{}`. The
result is the final value of `matchingKeys` and the command. -/
def Scan (mc : MockCache) (cursor : Nat) (pattern : String) (count : Int) :
    List String × ScanCmd :=
  let matchingKeys := mc.data.keys.foldl
    (fun (acc : List String) key =>
      if pattern.length > 0 ∧ hasPrefix key pattern then acc ++ [key] else acc)
    []
  (matchingKeys, {})

/-- The method `MockCache.SetNX`, called at instant `now`. -/
def SetNX (mc : MockCache) (now : Time) (key : String) (value : Value)
    (expiration : Duration) : MockCache × BoolCmd :=
  let held : Bool :=
    match mc.data.lookup key with
    | some _ =>
      match mc.exp.lookup key with
      | none => true
      | some exp => decide (now < exp)
    | none => false
  if held then (mc, {})
  else
    let data := mc.data.store key (sprintV value)
    if expiration > 0 then
      ({ mc with data := data, exp := mc.exp.store key (now + expiration) }, {})
    else
      ({ mc with data := data }, {})

/-- The method `MockCache.HIncrBy`. -/
def HIncrBy (mc : MockCache) (key field : String) (value : Int) : MockCache × IntCmd :=
  (mc, {})

/-- The method `MockCache.Expire`, called at instant `now`. -/
def Expire (mc : MockCache) (now : Time) (key : String) (expiration : Duration) :
    MockCache × BoolCmd :=
  match mc.data.lookup key with
  | some _ => ({ mc with exp := mc.exp.store key (now + expiration) }, {})
  | none => (mc, {})

/-- The method `MockCache.DeleteKeysWithPrefix`; `none` is the `nil` error. -/
def DeleteKeysWithPrefix (mc : MockCache) (pfx : String) : MockCache × Option Error :=
  let r := mc.data.keys.foldl
    (fun (acc : MockCache) key =>
      if hasPrefix key pfx then
        { acc with data := acc.data.delete key, exp := acc.exp.delete key }
      else acc)
    mc
  (r, none)

/-- The method `MockCache.AcquireLock`, called at instant `now`. -/
def AcquireLock (mc : MockCache) (now : Time) (key : String) : MockCache × Bool :=
  let lockKey := key ++ "_lock"
  let held : Bool :=
    match mc.data.lookup lockKey with
    | some _ =>
      match mc.exp.lookup lockKey with
      | none => true
      | some exp => decide (now < exp)
    | none => false
  if held then (mc, false)
  else
    ({ mc with data := mc.data.store lockKey "1",
               exp := mc.exp.store lockKey (now + Second * 30) }, true)

/-- The method `MockCache.ReleaseLock`. -/
def ReleaseLock (mc : MockCache) (key : String) : MockCache × Bool :=
  let lockKey := key ++ "_lock"
  ({ mc with data := mc.data.delete lockKey, exp := mc.exp.delete lockKey }, true)

/-- The method `MockCache.HGetAll`. -/
def HGetAll (mc : MockCache) (key : String) : MapStringStringCmd :=
  match mc.hashMap.lookup key with
  | some data =>
    { val := data.keys.foldl
        (fun (result : GoMap String) k =>
          match data.lookup k with
          | some v => result.store k v
          | none => result)
        [] }
  | none => { val := [] }

end MockCache

/-! ## The cache interface and the composite helpers written against it -/

/-- The primitive methods of the interface `Cache` over a store of type `σ`.
Every call returns the store it leaves and its command. -/
structure Cache (σ : Type) where
  Get : σ → Time → String → σ × StringCmd
  Set : σ → Time → String → Value → Duration → σ × StatusCmd
  Del : σ → List String → σ × IntCmd
  Scan : σ → Nat → String → Int → σ × ScanCmd
  SetNX : σ → Time → String → Value → Duration → σ × BoolCmd

/-- The loop of the helper `DeleteKeysWithPrefix(ctx, cache, prefix)`. The
local `cursor` is declared before the loop and the loop never assigns it (the
cursor returned by `Scan` is bound to the blank identifier). `none` is a run
that used up `fuel` iterations; `some (s, e)` is a return with error `e`. -/
def DeleteKeysWithPrefix.loop {σ : Type} (cache : Cache σ) (pfx : String) (cursor : Nat) :
    Nat → σ → Option (σ × Option Error)
  | 0, _ => none
  | fuel + 1, s =>
    let (s1, cmd) := cache.Scan s cursor (pfx ++ "*") 10
    let (keys, _, err) := cmd.Result
    match err with
    | some e => some (s1, some e)
    | none =>
      let r : σ × Option Error :=
        if keys.length > 0 then
          let (s2, d) := cache.Del s1 keys
          (s2, d.Err)
        else (s1, none)
      match r.2 with
      | some e => some (r.1, some e)
      | none =>
        if cursor = 0 then some (r.1, none)
        else DeleteKeysWithPrefix.loop cache pfx cursor fuel r.1

/-- The helper `DeleteKeysWithPrefix(ctx, cache, prefix)`, which
`RedisCache.DeleteKeysWithPrefix` calls. -/
def DeleteKeysWithPrefix {σ : Type} (cache : Cache σ) (fuel : Nat) (s : σ) (pfx : String) :
    Option (σ × Option Error) :=
  DeleteKeysWithPrefix.loop cache pfx 0 fuel s

/-! ## Sequences of calls on the in-process store -/

/-- One call on the in-process store, with its arguments and its instant. -/
inductive Op where
  | get (now : Time) (key : String)
  | set (now : Time) (key : String) (value : Value) (expiration : Duration)
  | del (keys : List String)
  | scan (cursor : Nat) (pattern : String) (count : Int)
  | setNX (now : Time) (key : String) (value : Value) (expiration : Duration)
  | expire (now : Time) (key : String) (expiration : Duration)
  | getOrSet (nowGet nowSet : Time) (key : String) (value : Value) (expiration : Duration)
  | deleteKeysWithPrefix (pfx : String)
  | acquireLock (now : Time) (key : String)
  | releaseLock (key : String)
  | hIncrBy (key field : String) (value : Int)
  | hGetAll (key : String)
  deriving DecidableEq, Repr

/-- The store a call leaves. `Scan` and `HGetAll` write nothing. -/
def step (mc : MockCache) : Op → MockCache
  | .get now key => (mc.Get now key).1
  | .set now key value expiration => (mc.Set now key value expiration).1
  | .del keys => (mc.Del keys).1
  | .scan _ _ _ => mc
  | .setNX now key value expiration => (mc.SetNX now key value expiration).1
  | .expire now key expiration => (mc.Expire now key expiration).1
  | .getOrSet nowGet nowSet key value expiration =>
    (mc.GetOrSet nowGet nowSet key value expiration).1
  | .deleteKeysWithPrefix pfx => (mc.DeleteKeysWithPrefix pfx).1
  | .acquireLock now key => (mc.AcquireLock now key).1
  | .releaseLock key => (mc.ReleaseLock key).1
  | .hIncrBy key field value => (mc.HIncrBy key field value).1
  | .hGetAll _ => mc

/-- The store after the calls `ops`, made one after the other. -/
def run (mc : MockCache) (ops : List Op) : MockCache := ops.foldl step mc

/-- No expiration without a value: every key of `exp` is a key of `data`. -/
def NoOrphan (mc : MockCache) : Prop :=
  ∀ k, mc.data.lookup k = none → mc.exp.lookup k = none

/-- The lock token of `key` is held at instant `now`: it is stored and has no
expiration or an expiration after `now`. -/
def lockHeld (mc : MockCache) (now : Time) (key : String) : Bool :=
  match mc.data.lookup (key ++ "_lock") with
  | some _ =>
    match mc.exp.lookup (key ++ "_lock") with
    | none => true
    | some exp => decide (now < exp)
  | none => false

/-- The calls `AcquireLock(key)` made one after the other at the given
instants: the store they leave and what each returned. -/
def acquireAll (mc : MockCache) (key : String) : List Time → MockCache × List Bool
  | [] => (mc, [])
  | t :: ts =>
    let r := mc.AcquireLock t key
    let rest := acquireAll r.1 key ts
    (rest.1, r.2 :: rest.2)

/-- The calls `HIncrBy(key, field, d)` made one after the other for the
given deltas: the store they leave and the `Result()` of each. -/
def hIncrByAll (mc : MockCache) (key field : String) :
    List Int → MockCache × List (Int × Option Error)
  | [] => (mc, [])
  | d :: ds =>
    let r := mc.HIncrBy key field d
    let rest := hIncrByAll r.1 key field ds
    (rest.1, r.2.Result :: rest.2)

/-! ## A paging cache, to run the generic helpers against -/

/-- A key store laid out in numbered slots: `slots[i]` is the key kept in slot
`i`, or `none` once that key has been deleted. `deleted` records every key
passed to `Del`. -/
structure PagedStore where
  slots : List (Option String)
  deleted : List String
  deriving DecidableEq, Repr

/-- The keys a paged store still holds, in slot order. -/
def PagedStore.stored (s : PagedStore) : List String :=
  s.slots.filterMap id

/-- The glob match of a pattern `p*`: the key starts with `p`. -/
def matchesGlob (key pattern : String) : Bool :=
  hasPrefix key (String.mk pattern.data.dropLast)

/-- The slot a `Del` of the keys `ks` leaves in place of the slot `o`. -/
def PagedStore.emptied (ks : List String) (o : Option String) : Option String :=
  match o with
  | some k => if k ∈ ks then none else some k
  | none => none

/-- The page a `Scan` reads from one slot: its key when the slot holds a key
that matches the pattern. -/
def PagedStore.pageOf (pattern : String) (o : Option (Option String)) : List String :=
  match o with
  | some (some k) => if matchesGlob k pattern then [k] else []
  | _ => []

/-- A cache whose `Scan` pages: the cursor is a slot number, one call reads
that one slot, and the next cursor is the number of the next slot, 0 after the
last slot. `Del` empties the slots of the given keys and moves no other slot,
so a cursor stays valid across deletions. -/
def pagedCache : Cache PagedStore where
  Get s _ _ := (s, { err := some Error.redisNil })
  Set s _ _ _ _ := (s, {})
  Del s ks :=
    ({ slots := s.slots.map (PagedStore.emptied ks), deleted := s.deleted ++ ks },
     { val := (s.stored.filter (fun k => decide (k ∈ ks))).length })
  Scan s cursor pattern _ :=
    (s, { page := PagedStore.pageOf pattern (s.slots.get? cursor),
          cursor := if cursor + 1 < s.slots.length then cursor + 1 else 0 })
  SetNX s _ _ _ _ := (s, {})

/-- The loop of the prefix deletion as the specification words it: scan with
the pattern, delete the keys returned, and go on from the cursor that `Scan`
returned until that cursor is 0. It is `DeleteKeysWithPrefix.loop` with the
returned cursor read instead of dropped. -/
def deleteFollowingCursor.loop {σ : Type} (cache : Cache σ) (pfx : String) :
    Nat → Nat → σ → Option (σ × Option Error)
  | 0, _, _ => none
  | fuel + 1, cursor, s =>
    let (s1, cmd) := cache.Scan s cursor (pfx ++ "*") 10
    let (keys, next, err) := cmd.Result
    match err with
    | some e => some (s1, some e)
    | none =>
      let r : σ × Option Error :=
        if keys.length > 0 then
          let (s2, d) := cache.Del s1 keys
          (s2, d.Err)
        else (s1, none)
      match r.2 with
      | some e => some (r.1, some e)
      | none =>
        if next = 0 then some (r.1, none)
        else deleteFollowingCursor.loop cache pfx fuel next r.1

/-- The prefix deletion as the specification words it, from cursor 0. -/
def deleteFollowingCursor {σ : Type} (cache : Cache σ) (fuel : Nat) (s : σ) (pfx : String) :
    Option (σ × Option Error) :=
  deleteFollowingCursor.loop cache pfx fuel 0 s

/-! ## The lock helpers written against the interface, and the factory -/

/-- The helper `AcquireLock(ctx, cache, key)`; `now` is the instant of its
`SetNX`. -/
def AcquireLock {σ : Type} (cache : Cache σ) (s : σ) (now : Time) (key : String) : σ × Bool :=
  let (s1, cmd) := cache.SetNX s now (key ++ "_lock") (Value.str "1") (Second * 30)
  let (result, err) := cmd.Result
  (s1, decide (err = none) && result)

/-- The helper `ReleaseLock(ctx, cache, key)`. -/
def ReleaseLock {σ : Type} (cache : Cache σ) (s : σ) (key : String) : σ × Bool :=
  let (s1, cmd) := cache.Del s [key ++ "_lock"]
  let (_, err) := cmd.Result
  (s1, decide (err = none))

/-- The in-process store seen through the interface `Cache`: each field is the
`MockCache` method of that name, with the command it returns. -/
def mockCache : Cache MockCache where
  Get := MockCache.Get
  Set := MockCache.Set
  Del s keys := ((s.Del keys).1, (s.Del keys).2.2)
  Scan s cursor pattern count := (s, (s.Scan cursor pattern count).2)
  SetNX := MockCache.SetNX

/-- The fields `config.Redis.Addr` and `config.Redis.Password` that `NewCache`
reads. -/
structure RedisConfig where
  Addr : String
  Password : String
  deriving DecidableEq, Repr

/-- The values of interface type `Cache` that `NewCache` builds: a
`RedisCache` around a client for the configured address and password, or a
`MockCache`. -/
inductive CacheImpl where
  | redisCache (addr password : String)
  | mockCacheOf (mc : MockCache)
  deriving DecidableEq, Repr

/-- The factory `NewCache`; `ping` is the error of
`rdb.Ping(context.Background()).Err()`, `none` when the probe succeeds. The
log lines are left out. -/
def NewCache (config : RedisConfig) (ping : Option Error) : CacheImpl × Option Error :=
  match ping with
  | some _ => (CacheImpl.mockCacheOf newMockCache, none)
  | none => (CacheImpl.redisCache config.Addr config.Password, none)

/-! ## The comma checks of `repo/pg/sql_test.go` and `test/sql_validator.go`

A Go string is its sequence of bytes; `s[i]` outside the string is a run-time
panic. -/

/-- A Go string, byte by byte. -/
abbrev GoString := List Nat

/-- The UTF-8 encoding of one character. -/
def utf8Bytes (c : Char) : List Nat :=
  if c.toNat < 128 then [c.toNat]
  else if c.toNat < 2048 then [192 + c.toNat / 64, 128 + c.toNat % 64]
  else if c.toNat < 65536 then
    [224 + c.toNat / 4096, 128 + c.toNat / 64 % 64, 128 + c.toNat % 64]
  else
    [240 + c.toNat / 262144, 128 + c.toNat / 4096 % 64, 128 + c.toNat / 64 % 64,
     128 + c.toNat % 64]

/-- The bytes of a string literal: the UTF-8 encoding of its characters. -/
def bytesOf (s : String) : GoString :=
  s.data.foldr (fun c acc => utf8Bytes c ++ acc) []

/-- What a call comes to: a returned value, an index-out-of-range panic, or a
loop that used up its fuel. -/
inductive Outcome (α : Type) where
  | value (a : α)
  | indexPanic
  | outOfFuel
  deriving DecidableEq, Repr

/-- The library function `strings.Contains(s, substr)`. -/
def stringsContains (s substr : GoString) : Bool :=
  match s with
  | [] => substr.isEmpty
  | c :: cs => substr.isPrefixOf (c :: cs) || stringsContains cs substr

namespace pg

/-- The loop of `containsDoubleComma` in package `pg`, from index `i`. -/
def containsDoubleComma.loop (s : GoString) : Nat → Nat → Outcome Bool
  | 0, _ => Outcome.outOfFuel
  | fuel + 1, i =>
    if (i : Int) < (s.length : Int) - 1 then
      match s.get? i with
      | none => Outcome.indexPanic
      | some a =>
        if a = 44 then
          match s.get? (i + 1) with
          | none => Outcome.indexPanic
          | some b =>
            if b = 44 then Outcome.value true
            else containsDoubleComma.loop s fuel (i + 1)
        else containsDoubleComma.loop s fuel (i + 1)
    else Outcome.value false

/-- The function `containsDoubleComma` of `repo/pg/sql_test.go`. -/
def containsDoubleComma (s : GoString) : Outcome Bool :=
  containsDoubleComma.loop s (s.length + 1) 0

end pg

namespace main

/-- The function `containsDoubleComma` of `test/sql_validator.go`. -/
def containsDoubleComma (s : GoString) : Bool :=
  stringsContains s (bytesOf ", ,")

/-- The loop of `findCommaPositions`, from index `i` with the slice
`positions` built so far. The operands of the `&&` chain are read left to
right and the chain stops at the first false one. -/
def findCommaPositions.loop (s : GoString) : Nat → Nat → List Nat → Outcome (List Nat)
  | 0, _, _ => Outcome.outOfFuel
  | fuel + 1, i, positions =>
    if (i : Int) < (s.length : Int) - 1 then
      match s.get? i with
      | none => Outcome.indexPanic
      | some a =>
        if a = 44 then
          if i + 1 < s.length then
            match s.get? (i + 1) with
            | none => Outcome.indexPanic
            | some b =>
              if b = 32 then
                if i + 2 < s.length then
                  match s.get? (i + 2) with
                  | none => Outcome.indexPanic
                  | some c =>
                    if c = 44 then findCommaPositions.loop s fuel (i + 1) (positions ++ [i])
                    else findCommaPositions.loop s fuel (i + 1) positions
                else findCommaPositions.loop s fuel (i + 1) positions
              else findCommaPositions.loop s fuel (i + 1) positions
          else findCommaPositions.loop s fuel (i + 1) positions
        else findCommaPositions.loop s fuel (i + 1) positions
    else Outcome.value positions

/-- The function `findCommaPositions` of `test/sql_validator.go`. -/
def findCommaPositions (s : GoString) : Outcome (List Nat) :=
  findCommaPositions.loop s (s.length + 1) 0 []

end main

/-- The three bytes of `s` at `i`, `i + 1` and `i + 2` are `','`, `' '` and
`','`. -/
def commaSpaceCommaAt (s : GoString) (i : Nat) : Bool :=
  decide (s.get? i = some 44) && decide (s.get? (i + 1) = some 32) &&
    decide (s.get? (i + 2) = some 44)

/-! ## Lemmas on Go maps -/

namespace GoMap

theorem lookup_delete_self {α : Type} (m : GoMap α) (k : String) :
    (m.delete k).lookup k = none := by
  induction m with
  | nil => rfl
  | cons p rest ih =>
    obtain ⟨k', v⟩ := p
    by_cases h : k' = k
    · simpa [delete, h] using ih
    · simpa [delete, lookup, h] using ih

theorem lookup_delete_ne {α : Type} (m : GoMap α) {k k' : String} (h : k' ≠ k) :
    (m.delete k).lookup k' = m.lookup k' := by
  induction m with
  | nil => rfl
  | cons p rest ih =>
    obtain ⟨a, v⟩ := p
    have ih' : lookup (List.filter (fun p => decide (p.1 ≠ k)) rest) k' = lookup rest k' := ih
    by_cases ha : a = k
    · subst ha
      have hk : ¬ a = k' := fun e => h e.symm
      simp only [delete, List.filter_cons, lookup, hk, if_false]
      simpa using ih'
    · by_cases hk : a = k'
      · subst hk
        simp [delete, List.filter_cons, lookup, ha]
      · simp only [delete, List.filter_cons, lookup, hk, if_false]
        simpa [ha, lookup, hk] using ih'

theorem lookup_store_self {α : Type} (m : GoMap α) (k : String) (v : α) :
    (m.store k v).lookup k = some v := by
  simp [store, lookup]

theorem lookup_store_ne {α : Type} (m : GoMap α) {k k' : String} (v : α) (h : k' ≠ k) :
    (m.store k v).lookup k' = m.lookup k' := by
  have hk : ¬ k = k' := fun e => h e.symm
  simp [store, lookup, hk, lookup_delete_ne m h]

theorem lookup_eq_none_iff {α : Type} (m : GoMap α) (k : String) :
    m.lookup k = none ↔ k ∉ m.keys := by
  induction m with
  | nil => simp [lookup, keys]
  | cons p rest ih =>
    obtain ⟨a, v⟩ := p
    by_cases ha : a = k
    · simp [lookup, keys, ha]
    · have hk : ¬ k = a := fun e => ha e.symm
      simp only [keys, List.mem_dedup] at ih
      simp [lookup, keys, ha, hk, ih]

end GoMap

/-! ## What the commands of the in-process store carry -/

theorem MockCache.Get_cmd (mc : MockCache) (now : Time) (key : String) :
    (mc.Get now key).2 = {} := by
  unfold MockCache.Get
  split
  · split
    · rfl
    · split <;> rfl
  · rfl

/-- C1: on the input (fresh store, key "k", values "a" then "b",
ttl 0) the first `GetOrSet` stores "a", and the second `GetOrSet` returns its
own argument "b" and leaves "b" stored: the stored value is not returned. -/
theorem c1_second_getOrSet_returns_second_value :
    (MockCache.GetOrSet newMockCache 0 0 "k" (Value.str "a") 0).1.data.lookup "k" = some "a" ∧
    (MockCache.GetOrSet (MockCache.GetOrSet newMockCache 0 0 "k" (Value.str "a") 0).1
        1 1 "k" (Value.str "b") 0).2 = (Value.str "b", none) ∧
    (MockCache.GetOrSet (MockCache.GetOrSet newMockCache 0 0 "k" (Value.str "a") 0).1
        1 1 "k" (Value.str "b") 0).1.data.lookup "k" = some "b" := by
  decide

/-- C2: on the input (fresh store, `Set("k", "v", 0)` at instant 0,
`Get("k")` at instant 1) the store holds "v" under "k" with no expiration,
and the command `Get` returns carries the empty string and no error. -/
theorem c2_get_after_set_returns_empty :
    (MockCache.Set newMockCache 0 "k" (Value.str "v") 0).1.data.lookup "k" = some "v" ∧
    (MockCache.Set newMockCache 0 "k" (Value.str "v") 0).1.exp.lookup "k" = none ∧
    (MockCache.Get (MockCache.Set newMockCache 0 "k" (Value.str "v") 0).1 1 "k").2.Result
      = ("", none) := by
  decide

/-- C3: on the input (fresh store, key "k" never set) `Get("k")`
carries the empty string and a nil error, not `redis.Nil`, and it is the same
command as the `Get("k")` of a store where "k" holds the empty string. -/
theorem c3_get_absent_is_not_redisNil :
    (MockCache.Get newMockCache 0 "k").2.Result = ("", none) ∧
    (MockCache.Get newMockCache 0 "k").2.Result.2 ≠ some Error.redisNil ∧
    (MockCache.Get newMockCache 0 "k").2
      = (MockCache.Get (MockCache.Set newMockCache 0 "k" (Value.str "") 0).1 0 "k").2 := by
  decide

/-- C4: on the input (fresh store, `SetNX("k", "a", 10)` at instant 0,
then `SetNX("k", "b", 10)` at instant 1) the first call stores "a" and the
second leaves "a" stored, and both calls return false with no error: the first
call does not return true. -/
theorem c4_first_setNX_returns_false :
    (MockCache.SetNX newMockCache 0 "k" (Value.str "a") 10).2.Result = (false, none) ∧
    (MockCache.SetNX newMockCache 0 "k" (Value.str "a") 10).1.data.lookup "k" = some "a" ∧
    (MockCache.SetNX (MockCache.SetNX newMockCache 0 "k" (Value.str "a") 10).1
        1 "k" (Value.str "b") 10).2.Result = (false, none) ∧
    (MockCache.SetNX (MockCache.SetNX newMockCache 0 "k" (Value.str "a") 10).1
        1 "k" (Value.str "b") 10).1.data.lookup "k" = some "a" := by
  decide

/-! ## The lock -/

theorem MockCache.AcquireLock_of_held (mc : MockCache) (now : Time) (key : String)
    (h : lockHeld mc now key = true) : mc.AcquireLock now key = (mc, false) := by
  unfold MockCache.AcquireLock
  simp only []
  change (if lockHeld mc now key = true then _ else _) = _
  simp [h]

theorem MockCache.AcquireLock_of_free (mc : MockCache) (now : Time) (key : String)
    (h : lockHeld mc now key = false) :
    mc.AcquireLock now key =
      ({ mc with data := mc.data.store (key ++ "_lock") "1",
                 exp := mc.exp.store (key ++ "_lock") (now + Second * 30) }, true) := by
  unfold MockCache.AcquireLock
  simp only []
  change (if lockHeld mc now key = true then _ else _) = _
  simp [h]

theorem lockHeld_after_acquire (mc : MockCache) (t1 t : Time) (key : String)
    (h : lockHeld mc t1 key = false) (ht : t < t1 + Second * 30) :
    lockHeld (mc.AcquireLock t1 key).1 t key = true := by
  rw [MockCache.AcquireLock_of_free mc t1 key h]
  simp [lockHeld, GoMap.lookup_store_self, ht]

theorem acquireAll_of_held (key : String) (ts : List Time) :
    ∀ mc : MockCache, (∀ t ∈ ts, lockHeld mc t key = true) →
      acquireAll mc key ts = (mc, List.replicate ts.length false) := by
  induction ts with
  | nil => intro mc _; rfl
  | cons t ts ih =>
    intro mc h
    have ht : lockHeld mc t key = true := h t (List.mem_cons_self t ts)
    have hts : ∀ u ∈ ts, lockHeld mc u key = true :=
      fun u hu => h u (List.mem_cons_of_mem t hu)
    simp [acquireAll, MockCache.AcquireLock_of_held mc t key ht, ih mc hts,
      List.replicate_succ]

/-- C5: from a store where the lock token of `k` is not held at instant `t1`,
`AcquireLock(k)` calls made one after the other at `t1` and at instants `ts`
that all lie before the end of the 30-second lease `t1 + 30 s`, with no
release in between, return true for the first call and false for every other
one, so exactly one of the calls returns true; and from every store, the
`AcquireLock(k)` that follows a `ReleaseLock(k)` returns true. -/
theorem c5_exactly_one_acquire_succeeds (mc : MockCache) (k : String) (t1 : Time)
    (ts : List Time) (hfree : lockHeld mc t1 k = false)
    (hlease : ∀ t ∈ ts, t < t1 + Second * 30) :
    (acquireAll mc k (t1 :: ts)).2 = true :: List.replicate ts.length false ∧
    (acquireAll mc k (t1 :: ts)).2.count true = 1 ∧
    ∀ (s : MockCache) (t : Time),
      (MockCache.AcquireLock (MockCache.ReleaseLock s k).1 t k).2 = true := by
  have hrest : ∀ t ∈ ts, lockHeld (mc.AcquireLock t1 k).1 t k = true :=
    fun t ht => lockHeld_after_acquire mc t1 t k hfree (hlease t ht)
  have hall : (acquireAll mc k (t1 :: ts)).2 = true :: List.replicate ts.length false := by
    have h1 : (mc.AcquireLock t1 k).2 = true := by
      rw [MockCache.AcquireLock_of_free mc t1 k hfree]
    simp [acquireAll, acquireAll_of_held k ts _ hrest, h1]
  refine ⟨hall, ?_, ?_⟩
  · rw [hall]
    simp [List.count_cons, List.count_replicate]
  · intro s t
    have hf : lockHeld (MockCache.ReleaseLock s k).1 t k = false := by
      simp [lockHeld, MockCache.ReleaseLock, GoMap.lookup_delete_self]
    rw [MockCache.AcquireLock_of_free _ t k hf]

/-- C5 at a concrete input: on a fresh store three `AcquireLock("job")` calls
at instants 0, 1 and 2 return true exactly once. -/
theorem c5_exactly_one_acquire_succeeds_witness :
    lockHeld newMockCache 0 "job" = false ∧
    (acquireAll newMockCache "job" [0, 1, 2]).2.count true = 1 :=
  ⟨by decide,
   (c5_exactly_one_acquire_succeeds newMockCache "job" 0 [1, 2] (by decide) (by decide)).2.1⟩

/-! ## No expiration without a value -/

theorem NoOrphan_deleteBoth {mc : MockCache} (h : NoOrphan mc) (key : String) :
    NoOrphan { mc with data := mc.data.delete key, exp := mc.exp.delete key } := by
  intro k hk
  by_cases e : k = key
  · subst e
    exact GoMap.lookup_delete_self mc.exp k
  · have hd : mc.data.lookup k = none := by
      rw [← GoMap.lookup_delete_ne mc.data e]; exact hk
    show (mc.exp.delete key).lookup k = none
    rw [GoMap.lookup_delete_ne mc.exp e]
    exact h k hd

theorem NoOrphan_storeData {mc : MockCache} (h : NoOrphan mc) (key v : String)
    (exp : GoMap Time) (hexp : ∀ k, k ≠ key → exp.lookup k = mc.exp.lookup k) :
    NoOrphan { mc with data := mc.data.store key v, exp := exp } := by
  intro k hk
  have e : k ≠ key := by
    intro e
    subst e
    have hs : (mc.data.store k v).lookup k = none := hk
    rw [GoMap.lookup_store_self] at hs
    exact Option.noConfusion hs
  have hd : mc.data.lookup k = none := by
    rw [← GoMap.lookup_store_ne mc.data v e]; exact hk
  show exp.lookup k = none
  rw [hexp k e]
  exact h k hd

theorem NoOrphan_Get {mc : MockCache} (h : NoOrphan mc) (now : Time) (key : String) :
    NoOrphan (mc.Get now key).1 := by
  unfold MockCache.Get
  split
  · split
    · exact h
    · split
      · exact h
      · exact NoOrphan_deleteBoth h key
  · exact h

theorem NoOrphan_Set {mc : MockCache} (h : NoOrphan mc) (now : Time) (key : String)
    (value : Value) (expiration : Duration) :
    NoOrphan (mc.Set now key value expiration).1 := by
  unfold MockCache.Set
  simp only []
  split
  · exact NoOrphan_storeData h key _ _ (fun k e => GoMap.lookup_store_ne mc.exp _ e)
  · exact NoOrphan_storeData h key _ _ (fun k e => GoMap.lookup_delete_ne mc.exp e)

theorem NoOrphan_Del_fold (keys : List String) :
    ∀ acc : MockCache × Nat, NoOrphan acc.1 →
      NoOrphan (keys.foldl
        (fun (acc : MockCache × Nat) key =>
          match acc.1.data.lookup key with
          | some _ =>
            ({ acc.1 with data := acc.1.data.delete key, exp := acc.1.exp.delete key },
              acc.2 + 1)
          | none => acc) acc).1 := by
  induction keys with
  | nil => intro acc h; exact h
  | cons key keys ih =>
    intro acc h
    rw [List.foldl_cons]
    apply ih
    split
    · exact NoOrphan_deleteBoth h key
    · exact h

theorem NoOrphan_Del {mc : MockCache} (h : NoOrphan mc) (keys : List String) :
    NoOrphan (mc.Del keys).1 :=
  NoOrphan_Del_fold keys (mc, 0) h

theorem NoOrphan_SetNX {mc : MockCache} (h : NoOrphan mc) (now : Time) (key : String)
    (value : Value) (expiration : Duration) :
    NoOrphan (mc.SetNX now key value expiration).1 := by
  unfold MockCache.SetNX
  simp only []
  split
  · exact h
  · split
    · exact NoOrphan_storeData h key _ _ (fun k e => GoMap.lookup_store_ne mc.exp _ e)
    · exact NoOrphan_storeData h key _ _ (fun k _ => rfl)

theorem NoOrphan_Expire {mc : MockCache} (h : NoOrphan mc) (now : Time) (key : String)
    (expiration : Duration) : NoOrphan (mc.Expire now key expiration).1 := by
  unfold MockCache.Expire
  split
  · rename_i v hv
    intro k hk
    have e : k ≠ key := by
      intro e
      subst e
      have hk' : mc.data.lookup k = none := hk
      rw [hv] at hk'
      exact Option.noConfusion hk'
    show (mc.exp.store key (now + expiration)).lookup k = none
    rw [GoMap.lookup_store_ne mc.exp _ e]
    exact h k hk
  · exact h

theorem NoOrphan_GetOrSet {mc : MockCache} (h : NoOrphan mc) (nowGet nowSet : Time)
    (key : String) (value : Value) (expiration : Duration) :
    NoOrphan (mc.GetOrSet nowGet nowSet key value expiration).1 := by
  unfold MockCache.GetOrSet
  simp only [StringCmd.Result]
  split
  · exact NoOrphan_Set (NoOrphan_Get h nowGet key) nowSet key value expiration
  · exact NoOrphan_Get h nowGet key

theorem NoOrphan_DeleteKeysWithPrefix_fold (pfx : String) (keys : List String) :
    ∀ acc : MockCache, NoOrphan acc →
      NoOrphan (keys.foldl
        (fun (acc : MockCache) key =>
          if hasPrefix key pfx then
            { acc with data := acc.data.delete key, exp := acc.exp.delete key }
          else acc) acc) := by
  induction keys with
  | nil => intro acc h; exact h
  | cons key keys ih =>
    intro acc h
    rw [List.foldl_cons]
    apply ih
    split
    · exact NoOrphan_deleteBoth h key
    · exact h

theorem NoOrphan_DeleteKeysWithPrefix {mc : MockCache} (h : NoOrphan mc) (pfx : String) :
    NoOrphan (mc.DeleteKeysWithPrefix pfx).1 :=
  NoOrphan_DeleteKeysWithPrefix_fold pfx mc.data.keys mc h

theorem NoOrphan_AcquireLock {mc : MockCache} (h : NoOrphan mc) (now : Time) (key : String) :
    NoOrphan (mc.AcquireLock now key).1 := by
  unfold MockCache.AcquireLock
  simp only []
  split
  · exact h
  · exact NoOrphan_storeData h _ _ _ (fun k e => GoMap.lookup_store_ne mc.exp _ e)

theorem NoOrphan_ReleaseLock {mc : MockCache} (h : NoOrphan mc) (key : String) :
    NoOrphan (mc.ReleaseLock key).1 :=
  NoOrphan_deleteBoth h (key ++ "_lock")

theorem NoOrphan_step {mc : MockCache} (h : NoOrphan mc) (op : Op) : NoOrphan (step mc op) := by
  cases op with
  | get now key => exact NoOrphan_Get h now key
  | set now key value expiration => exact NoOrphan_Set h now key value expiration
  | del keys => exact NoOrphan_Del h keys
  | scan cursor pattern count => exact h
  | setNX now key value expiration => exact NoOrphan_SetNX h now key value expiration
  | expire now key expiration => exact NoOrphan_Expire h now key expiration
  | getOrSet nowGet nowSet key value expiration =>
    exact NoOrphan_GetOrSet h nowGet nowSet key value expiration
  | deleteKeysWithPrefix pfx => exact NoOrphan_DeleteKeysWithPrefix h pfx
  | acquireLock now key => exact NoOrphan_AcquireLock h now key
  | releaseLock key => exact NoOrphan_ReleaseLock h key
  | hIncrBy key field value => exact h
  | hGetAll key => exact h

theorem NoOrphan_run (ops : List Op) : ∀ mc : MockCache, NoOrphan mc → NoOrphan (run mc ops) := by
  induction ops with
  | nil => intro mc h; exact h
  | cons op ops ih =>
    intro mc h
    exact ih (step mc op) (NoOrphan_step h op)

theorem NoOrphan_new : NoOrphan newMockCache := fun _ _ => rfl

/-! ## Prefix deletion on the in-process store -/

theorem DeleteKeysWithPrefix_fold_lookup (pfx : String) (keys : List String) (k : String) :
    ∀ acc : MockCache,
      (keys.foldl
        (fun (acc : MockCache) key =>
          if hasPrefix key pfx then
            { acc with data := acc.data.delete key, exp := acc.exp.delete key }
          else acc) acc).data.lookup k
        = (if hasPrefix k pfx = true ∧ k ∈ keys then none else acc.data.lookup k) ∧
      (keys.foldl
        (fun (acc : MockCache) key =>
          if hasPrefix key pfx then
            { acc with data := acc.data.delete key, exp := acc.exp.delete key }
          else acc) acc).exp.lookup k
        = (if hasPrefix k pfx = true ∧ k ∈ keys then none else acc.exp.lookup k) := by
  induction keys with
  | nil => intro acc; simp
  | cons a keys ih =>
    intro acc
    rw [List.foldl_cons]
    by_cases ha : hasPrefix a pfx = true
    · rw [if_pos ha]
      obtain ⟨hd, he⟩ := ih { acc with data := acc.data.delete a, exp := acc.exp.delete a }
      rw [hd, he]
      by_cases hka : k = a
      · subst hka
        simp [ha, GoMap.lookup_delete_self]
      · simp [hka, GoMap.lookup_delete_ne _ hka]
    · rw [if_neg ha]
      obtain ⟨hd, he⟩ := ih acc
      rw [hd, he]
      by_cases hka : k = a
      · subst hka
        simp [ha]
      · simp [hka]

theorem DeleteKeysWithPrefix_lookup {mc : MockCache} (h : NoOrphan mc) (pfx k : String) :
    (mc.DeleteKeysWithPrefix pfx).1.data.lookup k
      = (if hasPrefix k pfx = true then none else mc.data.lookup k) ∧
    (mc.DeleteKeysWithPrefix pfx).1.exp.lookup k
      = (if hasPrefix k pfx = true then none else mc.exp.lookup k) := by
  obtain ⟨hd, he⟩ := DeleteKeysWithPrefix_fold_lookup pfx mc.data.keys k mc
  unfold MockCache.DeleteKeysWithPrefix
  simp only []
  rw [hd, he]
  by_cases hp : hasPrefix k pfx = true
  · by_cases hk : k ∈ mc.data.keys
    · simp [hp, hk]
    · have hnone : mc.data.lookup k = none := (GoMap.lookup_eq_none_iff mc.data k).mpr hk
      simp [hp, hk, hnone, h k hnone]
  · simp [hp]

/-- C6: in every store state reached from a fresh store by any sequence of
calls, after `DeleteKeysWithPrefix(p)` every key that starts with `p` has no
value and no expiration, every key that does not start with `p` has the value
and the expiration it had before, and the call returns nil; and after setting
`ns:a`, `ns:b` and `other:c`, `DeleteKeysWithPrefix("ns:")` leaves `other:c`
present and both `ns:` keys absent. -/
theorem c6_deleteKeysWithPrefix_removes_exactly_matching_keys (ops : List Op) (pfx : String) :
    (∀ k, hasPrefix k pfx = true →
      ((run newMockCache ops).DeleteKeysWithPrefix pfx).1.data.lookup k = none ∧
      ((run newMockCache ops).DeleteKeysWithPrefix pfx).1.exp.lookup k = none) ∧
    (∀ k, hasPrefix k pfx = false →
      ((run newMockCache ops).DeleteKeysWithPrefix pfx).1.data.lookup k
        = (run newMockCache ops).data.lookup k ∧
      ((run newMockCache ops).DeleteKeysWithPrefix pfx).1.exp.lookup k
        = (run newMockCache ops).exp.lookup k) ∧
    ((run newMockCache ops).DeleteKeysWithPrefix pfx).2 = none ∧
    ((run newMockCache
        [Op.set 0 "ns:a" (Value.str "1") 0, Op.set 0 "ns:b" (Value.str "2") 5,
         Op.set 0 "other:c" (Value.str "3") 7]).DeleteKeysWithPrefix "ns:").1
      = { data := [("other:c", "3")], exp := [("other:c", 7)], hashMap := [] } := by
  have hinv : NoOrphan (run newMockCache ops) := NoOrphan_run ops newMockCache NoOrphan_new
  refine ⟨?_, ?_, rfl, by decide⟩
  · intro k hk
    obtain ⟨hd, he⟩ := DeleteKeysWithPrefix_lookup hinv pfx k
    rw [hd, he]
    simp [hk]
  · intro k hk
    obtain ⟨hd, he⟩ := DeleteKeysWithPrefix_lookup hinv pfx k
    rw [hd, he]
    simp [hk]

/-- C6 at a concrete input: after `Set` of `ns:a`, `ns:b` and `other:c`, the
call `DeleteKeysWithPrefix("ns:")` leaves no value under `ns:a` and keeps the
value of `other:c`. -/
theorem c6_deleteKeysWithPrefix_removes_exactly_matching_keys_witness :
    ((run newMockCache
        [Op.set 0 "ns:a" (Value.str "1") 0, Op.set 0 "ns:b" (Value.str "2") 5,
         Op.set 0 "other:c" (Value.str "3") 7]).DeleteKeysWithPrefix "ns:").1.data.lookup "ns:a"
      = none ∧
    ((run newMockCache
        [Op.set 0 "ns:a" (Value.str "1") 0, Op.set 0 "ns:b" (Value.str "2") 5,
         Op.set 0 "other:c" (Value.str "3") 7]).DeleteKeysWithPrefix "ns:").1.data.lookup "other:c"
      = (run newMockCache
        [Op.set 0 "ns:a" (Value.str "1") 0, Op.set 0 "ns:b" (Value.str "2") 5,
         Op.set 0 "other:c" (Value.str "3") 7]).data.lookup "other:c" :=
  ⟨((c6_deleteKeysWithPrefix_removes_exactly_matching_keys _ "ns:").1 "ns:a" (by decide)).1,
   ((c6_deleteKeysWithPrefix_removes_exactly_matching_keys _ "ns:").2.1 "other:c" (by decide)).1⟩

/-! ## The generic prefix deletion -/

theorem DeleteKeysWithPrefix_single_scan {σ : Type} (cache : Cache σ) (fuel : Nat) (s : σ)
    (pfx : String) :
    DeleteKeysWithPrefix cache (fuel + 1) s pfx = DeleteKeysWithPrefix cache 1 s pfx := by
  simp [DeleteKeysWithPrefix, DeleteKeysWithPrefix.loop]

/-! The paging cache is a cache of the kind the prefix deletion is meant for:
its `Scan` returns a non-zero cursor while a stored key lies in a later slot,
and the loop that goes on from the returned cursor leaves no matching key. -/

theorem deleteFollowingCursor_loop_pagedCache_step (pfx : String) (fuel cursor : Nat)
    (s : PagedStore) :
    deleteFollowingCursor.loop pagedCache pfx (fuel + 1) cursor s
      = if cursor + 1 < s.slots.length then
          deleteFollowingCursor.loop pagedCache pfx fuel (cursor + 1)
            (if (PagedStore.pageOf (pfx ++ "*") (s.slots.get? cursor)).length > 0 then
              (pagedCache.Del s (PagedStore.pageOf (pfx ++ "*") (s.slots.get? cursor))).1
             else s)
        else
          some (if (PagedStore.pageOf (pfx ++ "*") (s.slots.get? cursor)).length > 0 then
              (pagedCache.Del s (PagedStore.pageOf (pfx ++ "*") (s.slots.get? cursor))).1
             else s, none) := by
  have hscan : pagedCache.Scan s cursor (pfx ++ "*") 10
      = (s, { page := PagedStore.pageOf (pfx ++ "*") (s.slots.get? cursor),
              cursor := if cursor + 1 < s.slots.length then cursor + 1 else 0 }) := rfl
  have hdel : ∀ ks, pagedCache.Del s ks
      = ({ slots := s.slots.map (PagedStore.emptied ks), deleted := s.deleted ++ ks },
         { val := (s.stored.filter (fun k => decide (k ∈ ks))).length }) := fun _ => rfl
  conv_lhs => unfold deleteFollowingCursor.loop
  generalize PagedStore.pageOf (pfx ++ "*") (s.slots.get? cursor) = page at hscan ⊢
  by_cases hp : page.length > 0
  · by_cases hc : cursor + 1 < s.slots.length
    · simp [hscan, hdel, ScanCmd.Result, IntCmd.Err, hp, hc]
    · simp [hscan, hdel, ScanCmd.Result, IntCmd.Err, hp, hc]
  · by_cases hc : cursor + 1 < s.slots.length
    · simp [hscan, hdel, ScanCmd.Result, IntCmd.Err, hp, hc]
    · simp [hscan, hdel, ScanCmd.Result, IntCmd.Err, hp, hc]
theorem PagedStore.emptied_eq_some (ks : List String) (o : Option String) (k : String)
    (h : PagedStore.emptied ks o = some k) : o = some k ∧ k ∉ ks := by
  cases o with
  | none => exact Option.noConfusion h
  | some k0 =>
    unfold PagedStore.emptied at h
    by_cases hk : k0 ∈ ks
    · simp only [if_pos hk] at h
      exact Option.noConfusion h
    · simp only [if_neg hk] at h
      have e : k0 = k := Option.some.inj h
      subst e
      exact ⟨rfl, hk⟩

theorem pagedCache_del_slot (s : PagedStore) (ks : List String) (j : Nat) (k : String)
    (h : (pagedCache.Del s ks).1.slots.get? j = some (some k)) :
    s.slots.get? j = some (some k) ∧ k ∉ ks := by
  have hs : (pagedCache.Del s ks).1.slots = s.slots.map (PagedStore.emptied ks) := rfl
  rw [hs, List.get?_eq_getElem?, List.getElem?_map] at h
  rw [List.get?_eq_getElem?]
  cases ho : s.slots[j]? with
  | none =>
    rw [ho] at h
    exact Option.noConfusion h
  | some o =>
    rw [ho] at h
    have h' : PagedStore.emptied ks o = some k := Option.some.inj h
    obtain ⟨e, hk⟩ := PagedStore.emptied_eq_some ks o k h'
    subst e
    exact ⟨rfl, hk⟩

theorem pagedStore_after_page (pat : String) (s : PagedStore) (cursor : Nat)
    (hinv : ∀ j, j < cursor → ∀ k, s.slots.get? j = some (some k) → matchesGlob k pat = false) :
    ∀ j, j < cursor + 1 → ∀ k,
      (if (PagedStore.pageOf pat (s.slots.get? cursor)).length > 0 then
          (pagedCache.Del s (PagedStore.pageOf pat (s.slots.get? cursor))).1
        else s).slots.get? j = some (some k) → matchesGlob k pat = false := by
  intro j hj k hk
  by_cases hp : (PagedStore.pageOf pat (s.slots.get? cursor)).length > 0
  · rw [if_pos hp] at hk
    obtain ⟨hslot, hnot⟩ := pagedCache_del_slot s _ j k hk
    by_cases hjc : j < cursor
    · exact hinv j hjc k hslot
    · have e : j = cursor := by omega
      subst e
      rw [hslot] at hnot
      by_cases hm : matchesGlob k pat = true
      · exact absurd (by simp [PagedStore.pageOf, hm]) hnot
      · simpa using hm
  · rw [if_neg hp] at hk
    by_cases hjc : j < cursor
    · exact hinv j hjc k hk
    · have e : j = cursor := by omega
      subst e
      rw [hk] at hp
      by_cases hm : matchesGlob k pat = true
      · exact absurd (by simp [PagedStore.pageOf, hm]) hp
      · simpa using hm

theorem pagedStore_after_page_length (pat : String) (s : PagedStore) (cursor : Nat) :
    (if (PagedStore.pageOf pat (s.slots.get? cursor)).length > 0 then
        (pagedCache.Del s (PagedStore.pageOf pat (s.slots.get? cursor))).1
      else s).slots.length = s.slots.length := by
  split
  · show (s.slots.map _).length = s.slots.length
    rw [List.length_map]
  · rfl

theorem deleteFollowingCursor_loop_pagedCache (pfx : String) :
    ∀ (fuel cursor : Nat) (s : PagedStore), s.slots.length ≤ fuel + cursor → 1 ≤ fuel →
      (∀ j, j < cursor → ∀ k, s.slots.get? j = some (some k) →
        matchesGlob k (pfx ++ "*") = false) →
      ∃ s', deleteFollowingCursor.loop pagedCache pfx fuel cursor s = some (s', none) ∧
        ∀ j k, s'.slots.get? j = some (some k) → matchesGlob k (pfx ++ "*") = false := by
  intro fuel
  induction fuel with
  | zero => intro cursor s _ h; omega
  | succ fuel ih =>
    intro cursor s hlen _ hinv
    have hnext := pagedStore_after_page (pfx ++ "*") s cursor hinv
    have hlength := pagedStore_after_page_length (pfx ++ "*") s cursor
    rw [deleteFollowingCursor_loop_pagedCache_step]
    by_cases hc : cursor + 1 < s.slots.length
    · rw [if_pos hc]
      exact ih (cursor + 1) _ (by rw [hlength]; omega) (by omega) hnext
    · rw [if_neg hc]
      refine ⟨_, rfl, ?_⟩
      intro j k hk
      by_cases hj : j < cursor + 1
      · exact hnext j hj k hk
      · have hnone : (if (PagedStore.pageOf (pfx ++ "*") (s.slots.get? cursor)).length > 0 then
              (pagedCache.Del s (PagedStore.pageOf (pfx ++ "*") (s.slots.get? cursor))).1
            else s).slots.get? j = none := by
          rw [List.get?_eq_none, hlength]; omega
        rw [hnone] at hk
        exact Option.noConfusion hk

theorem deleteFollowingCursor_pagedCache_clears (s : PagedStore) (pfx : String) :
    ∃ s', deleteFollowingCursor pagedCache (s.slots.length + 1) s pfx = some (s', none) ∧
      ∀ k, k ∈ s'.stored → matchesGlob k (pfx ++ "*") = false := by
  obtain ⟨s', hrun, hclear⟩ := deleteFollowingCursor_loop_pagedCache pfx (s.slots.length + 1) 0 s
    (by omega) (by omega) (fun j hj => absurd hj (Nat.not_lt_zero j))
  refine ⟨s', hrun, ?_⟩
  intro k hk
  unfold PagedStore.stored at hk
  rw [List.mem_filterMap] at hk
  obtain ⟨o, ho, hid⟩ := hk
  have e : o = some k := hid
  subst e
  obtain ⟨j, hj⟩ := List.get?_of_mem ho
  exact hclear j k hj


theorem pagedCache_scan_cursor_ne_zero (s : PagedStore) (cursor j : Nat) (pattern : String)
    (count : Int) (k : String) (hj : cursor < j) (hk : s.slots.get? j = some (some k)) :
    (pagedCache.Scan s cursor pattern count).2.cursor ≠ 0 := by
  have hlen : j < s.slots.length := by
    by_contra h
    have hnone : s.slots.get? j = none := by
      rw [List.get?_eq_none]; omega
    rw [hnone] at hk
    exact Option.noConfusion hk
  have hlt : cursor + 1 < s.slots.length := by omega
  show (if cursor + 1 < s.slots.length then cursor + 1 else 0) ≠ 0
  rw [if_pos hlt]
  omega

/-- C7: on the input (the paging cache with `ns:a`, `ns:b` and `other:c` in
slots 0, 1 and 2, prefix `ns:`) the first `Scan` returns the page `ns:a` with
next cursor 1, and `DeleteKeysWithPrefix` returns nil after that one page:
only `ns:a` was passed to `Del`, `ns:b` is still stored, and the `Scan` at
cursor 1 of the store it leaves still returns `ns:b`. On the same input the
loop that goes on from the returned cursor passes `ns:a` and `ns:b` to `Del`
and leaves only `other:c`. -/
theorem c7_generic_deleteKeysWithPrefix_stops_after_first_page :
    (pagedCache.Scan { slots := [some "ns:a", some "ns:b", some "other:c"], deleted := [] }
        0 "ns:*" 10).2.Result = (["ns:a"], 1, none) ∧
    DeleteKeysWithPrefix pagedCache 4
        { slots := [some "ns:a", some "ns:b", some "other:c"], deleted := [] } "ns:"
      = some ({ slots := [none, some "ns:b", some "other:c"], deleted := ["ns:a"] }, none) ∧
    (pagedCache.Scan { slots := [none, some "ns:b", some "other:c"], deleted := ["ns:a"] }
        1 "ns:*" 10).2.Result = (["ns:b"], 2, none) ∧
    deleteFollowingCursor pagedCache 4
        { slots := [some "ns:a", some "ns:b", some "other:c"], deleted := [] } "ns:"
      = some ({ slots := [none, none, some "other:c"], deleted := ["ns:a", "ns:b"] }, none) := by
  decide

/-! ## Hash fields -/

theorem hIncrByAll_eq (mc : MockCache) (key field : String) (ds : List Int) :
    hIncrByAll mc key field ds = (mc, List.replicate ds.length (0, none)) := by
  induction ds with
  | nil => rfl
  | cons d ds ih =>
    simp [hIncrByAll, MockCache.HIncrBy, IntCmd.Result, ih, List.replicate_succ]

/-- C8, as stated, fails: on a fresh store, after three
`HIncrBy("counter", "views", 1)` calls, `HGetAll("counter")` does not map
"views" to "3". -/
theorem c8_three_hIncrBy_do_not_yield_views_3 :
    ¬ ((MockCache.HGetAll (hIncrByAll newMockCache "counter" "views" [1, 1, 1]).1
        "counter").val.lookup "views" = some "3") := by
  decide

/-- C8, amended: `HIncrBy` on the in-process store writes nothing and returns
0 with no error, for every store, key, field and sequence of deltas; and on a
fresh store, after any such sequence, `HGetAll` of every key is the empty
mapping with no error. -/
theorem c8_hIncrBy_writes_nothing_and_returns_zero (mc : MockCache) (key field : String)
    (ds : List Int) :
    (hIncrByAll mc key field ds).1 = mc ∧
    (hIncrByAll mc key field ds).2 = List.replicate ds.length (0, none) ∧
    ∀ key' : String,
      (MockCache.HGetAll (hIncrByAll newMockCache key field ds).1 key').Result = ([], none) := by
  refine ⟨by rw [hIncrByAll_eq], by rw [hIncrByAll_eq], ?_⟩
  intro key'
  rw [hIncrByAll_eq]
  rfl

/-! ## Deletion and unconditional write -/

/-- C9: on the input (a store where only "a" was set, `Del("a")`)
the key is removed and counted once in the local `count`, and the command
returned carries the count 0 with no error. -/
theorem c9_del_of_present_key_returns_zero :
    (MockCache.Set newMockCache 0 "a" (Value.str "1") 0).1.data.lookup "a" = some "1" ∧
    (MockCache.Del (MockCache.Set newMockCache 0 "a" (Value.str "1") 0).1 ["a"]).2.2.Result
      = (0, none) ∧
    (MockCache.Del (MockCache.Set newMockCache 0 "a" (Value.str "1") 0).1 ["a"]).2.1 = 1 ∧
    (MockCache.Del (MockCache.Set newMockCache 0 "a" (Value.str "1") 0).1 ["a"]).1.data.lookup "a"
      = none := by
  decide

/-- C10: for every store, instant, key, value and ttl, `Set(k, v, ttl)` stores
the string form of `v` under `k`; afterwards `k` has the expiration
`now + ttl` when `ttl > 0` and no expiration when `ttl = 0`, whatever it had
before; every other key keeps its value and its expiration; the hash entries
are untouched and the command carries no error. -/
theorem c10_set_replaces_value_and_expiration (mc : MockCache) (now : Time) (k : String)
    (v : Value) (ttl : Duration) :
    (mc.Set now k v ttl).1.data.lookup k = some (sprintV v) ∧
    (ttl > 0 → (mc.Set now k v ttl).1.exp.lookup k = some (now + ttl)) ∧
    (ttl = 0 → (mc.Set now k v ttl).1.exp.lookup k = none) ∧
    (∀ k', k' ≠ k →
      (mc.Set now k v ttl).1.data.lookup k' = mc.data.lookup k' ∧
      (mc.Set now k v ttl).1.exp.lookup k' = mc.exp.lookup k') ∧
    (mc.Set now k v ttl).1.hashMap = mc.hashMap ∧
    (mc.Set now k v ttl).2.Err = none := by
  unfold MockCache.Set
  simp only []
  by_cases h : ttl > 0
  · simp only [if_pos h]
    refine ⟨GoMap.lookup_store_self _ _ _, fun _ => GoMap.lookup_store_self _ _ _, ?_, ?_,
      trivial, rfl⟩
    · intro h0
      rw [h0] at h
      exact absurd h (by decide)
    · intro k' hk
      exact ⟨GoMap.lookup_store_ne _ _ hk, GoMap.lookup_store_ne _ _ hk⟩
  · simp only [if_neg h]
    refine ⟨GoMap.lookup_store_self _ _ _, fun hp => absurd hp h,
      fun _ => GoMap.lookup_delete_self _ _, ?_, trivial, rfl⟩
    intro k' hk
    exact ⟨GoMap.lookup_store_ne _ _ hk, GoMap.lookup_delete_ne _ hk⟩

/-- C10 at a concrete input: "k" holds "a" with expiration 5; `Set("k", "b", 0)`
at instant 1 leaves "k" with no expiration, and `Set("k", "b", 7)` at instant 1
leaves it with expiration 8. -/
theorem c10_set_replaces_value_and_expiration_witness :
    (MockCache.Set newMockCache 0 "k" (Value.str "a") 5).1.exp.lookup "k" = some 5 ∧
    (MockCache.Set (MockCache.Set newMockCache 0 "k" (Value.str "a") 5).1
        1 "k" (Value.str "b") 0).1.exp.lookup "k" = none ∧
    (MockCache.Set (MockCache.Set newMockCache 0 "k" (Value.str "a") 5).1
        1 "k" (Value.str "b") 7).1.exp.lookup "k" = some (1 + 7) :=
  ⟨by decide,
   (c10_set_replaces_value_and_expiration _ 1 "k" (Value.str "b") 0).2.2.1 rfl,
   (c10_set_replaces_value_and_expiration _ 1 "k" (Value.str "b") 7).2.1 (by decide)⟩

/-! ## Release, expiration refresh and scan on the in-process store -/

/-- C11, as stated, fails: on a fresh store no lock token of "job" is stored,
and `ReleaseLock("job")` does not return false. -/
theorem c11_releaseLock_without_token_is_not_false :
    newMockCache.data.lookup ("job" ++ "_lock") = none ∧
    (MockCache.ReleaseLock newMockCache "job").2 ≠ false := by
  decide

/-- C11, amended: on the in-process store `ReleaseLock(k)` leaves no value and
no expiration under `k + "_lock"` and returns true, for every store, whether
or not a lock token was stored; the generic `ReleaseLock` returns true exactly
when the `Del` of the token reports no error, which on the in-process store is
always. -/
theorem c11_releaseLock_deletes_token_and_returns_true (mc : MockCache) (k : String) :
    (mc.ReleaseLock k).1.data.lookup (k ++ "_lock") = none ∧
    (mc.ReleaseLock k).1.exp.lookup (k ++ "_lock") = none ∧
    (mc.ReleaseLock k).2 = true ∧
    (ReleaseLock mockCache mc k).2 = true ∧
    ∀ (σ : Type) (cache : Cache σ) (s : σ),
      (ReleaseLock cache s k).2 = decide ((cache.Del s [k ++ "_lock"]).2.err = none) := by
  refine ⟨GoMap.lookup_delete_self _ _, GoMap.lookup_delete_self _ _, rfl, rfl, ?_⟩
  intro σ cache s
  rfl

/-- C12: on the input (fresh store, `Set("k", "v", 0)` at instant 0, then
`Expire("k", 10)` at instant 1) the key exists, `Expire` sets its expiration
to 11 and keeps its value, and the command it returns carries false with no
error: it does not return true for a key that existed. -/
theorem c12_expire_of_present_key_returns_false :
    (MockCache.Set newMockCache 0 "k" (Value.str "v") 0).1.data.lookup "k" = some "v" ∧
    (MockCache.Expire (MockCache.Set newMockCache 0 "k" (Value.str "v") 0).1
        1 "k" 10).1.exp.lookup "k" = some 11 ∧
    (MockCache.Expire (MockCache.Set newMockCache 0 "k" (Value.str "v") 0).1
        1 "k" 10).1.data.lookup "k" = some "v" ∧
    (MockCache.Expire (MockCache.Set newMockCache 0 "k" (Value.str "v") 0).1
        1 "k" 10).2.Result = (false, none) := by
  decide

/-- C13: on the input (fresh store, `Set("ns:a", "v", 0)`, then
`Scan(0, "ns:", 10)`) the loop collects the stored key `ns:a` in the local
`matchingKeys`, and the command returned carries no key at all, with cursor 0
and no error. -/
theorem c13_scan_returns_no_keys :
    (MockCache.Scan (MockCache.Set newMockCache 0 "ns:a" (Value.str "v") 0).1
        0 "ns:" 10).1 = ["ns:a"] ∧
    (MockCache.Scan (MockCache.Set newMockCache 0 "ns:a" (Value.str "v") 0).1
        0 "ns:" 10).2.Result = ([], 0, none) := by
  decide

/-! ## The two lock acquisitions compared -/

theorem AcquireLock_mockCache_eq (mc : MockCache) (now : Time) (k : String) :
    AcquireLock mockCache mc now k
      = ((mc.SetNX now (k ++ "_lock") (Value.str "1") (Second * 30)).1,
         decide ((mc.SetNX now (k ++ "_lock") (Value.str "1") (Second * 30)).2.err = none) &&
           (mc.SetNX now (k ++ "_lock") (Value.str "1") (Second * 30)).2.val) := rfl

theorem MockCache.SetNX_lock (mc : MockCache) (now : Time) (k : String) (v : Value)
    (ttl : Duration) :
    mc.SetNX now (k ++ "_lock") v ttl
      = if lockHeld mc now k = true then (mc, {})
        else if ttl > 0 then
          ({ mc with data := mc.data.store (k ++ "_lock") (sprintV v),
                     exp := mc.exp.store (k ++ "_lock") (now + ttl) }, {})
        else ({ mc with data := mc.data.store (k ++ "_lock") (sprintV v) }, {}) := rfl

theorem AcquireLock_mockCache_store (mc : MockCache) (now : Time) (k : String) :
    (AcquireLock mockCache mc now k).1 = (mc.AcquireLock now k).1 := by
  have hpos : Second * 30 > 0 := by decide
  rw [AcquireLock_mockCache_eq, MockCache.SetNX_lock]
  cases h : lockHeld mc now k with
  | true =>
    rw [MockCache.AcquireLock_of_held mc now k h]
    simp
  | false =>
    rw [MockCache.AcquireLock_of_free mc now k h]
    simp [hpos, sprintV]

theorem AcquireLock_mockCache_result (mc : MockCache) (now : Time) (k : String) :
    (AcquireLock mockCache mc now k).2 = false := by
  rw [AcquireLock_mockCache_eq, MockCache.SetNX_lock]
  split
  · rfl
  · split <;> rfl

/-- C14: on the input (fresh store, key "job", instant 0) the method
`MockCache.AcquireLock` and the generic `AcquireLock` run against the same
store leave the same store, the method returns true and the generic helper
returns false: the two booleans differ. -/
theorem c14_mock_and_generic_acquireLock_differ :
    (AcquireLock mockCache newMockCache 0 "job").1
      = (MockCache.AcquireLock newMockCache 0 "job").1 ∧
    (MockCache.AcquireLock newMockCache 0 "job").2 = true ∧
    (AcquireLock mockCache newMockCache 0 "job").2 = false := by
  decide

/-! ## The factory -/

/-- C15: whatever the configuration and whatever the outcome of the liveness
probe, `NewCache` returns a nil error; it returns the `RedisCache` for the
configured address and password when the probe succeeds, and a fresh
`MockCache`, with nothing stored, when the probe fails. -/
theorem c15_newCache_never_returns_an_error (config : RedisConfig) (ping : Option Error) :
    (NewCache config ping).2 = none ∧
    (ping = none →
      (NewCache config ping).1 = CacheImpl.redisCache config.Addr config.Password) ∧
    (ping ≠ none →
      (NewCache config ping).1
        = CacheImpl.mockCacheOf { data := [], exp := [], hashMap := [] }) := by
  cases ping with
  | none => exact ⟨rfl, fun _ => rfl, fun h => absurd rfl h⟩
  | some e => exact ⟨rfl, fun h => Option.noConfusion h, fun _ => rfl⟩

/-- C15 at a concrete input: with a refused connection `NewCache` returns the
empty in-process store. -/
theorem c15_newCache_never_returns_an_error_witness :
    (NewCache { Addr := "localhost:6379", Password := "" }
        (some (Error.other "connection refused"))).1
      = CacheImpl.mockCacheOf { data := [], exp := [], hashMap := [] } :=
  (c15_newCache_never_returns_an_error { Addr := "localhost:6379", Password := "" }
    (some (Error.other "connection refused"))).2.2 (by decide)

/-! ## The lease -/

theorem lockHeld_of_acquire_true (mc : MockCache) (t : Time) (k : String)
    (h : (mc.AcquireLock t k).2 = true) : lockHeld mc t k = false := by
  cases hh : lockHeld mc t k with
  | false => rfl
  | true =>
    rw [MockCache.AcquireLock_of_held mc t k hh] at h
    exact Bool.noConfusion h

theorem lockHeld_after_free_acquire (mc : MockCache) (t t' : Time) (k : String)
    (h : lockHeld mc t k = false) :
    lockHeld (mc.AcquireLock t k).1 t' k = decide (t' < t + Second * 30) := by
  rw [MockCache.AcquireLock_of_free mc t k h]
  simp [lockHeld, GoMap.lookup_store_self]

theorem lockHeld_congr (mc mc' : MockCache) (t : Time) (k : String)
    (hd : mc'.data.lookup (k ++ "_lock") = mc.data.lookup (k ++ "_lock"))
    (he : mc'.exp.lookup (k ++ "_lock") = mc.exp.lookup (k ++ "_lock")) :
    lockHeld mc' t k = lockHeld mc t k := by
  unfold lockHeld
  rw [hd, he]

/-- C16: when `AcquireLock(k)` returns true at instant `t`, then on every later
store `mc'` in which the value and the expiration under `k + "_lock"` are
still the ones that call wrote (no release, no other write of the token), the
`AcquireLock(k)` at instant `t'` returns false if `t' < t + 30 s` and returns
true if `t' ≥ t + 30 s`. -/
theorem c16_lease_is_thirty_seconds (mc mc' : MockCache) (k : String) (t t' : Time)
    (h : (mc.AcquireLock t k).2 = true)
    (hd : mc'.data.lookup (k ++ "_lock") = (mc.AcquireLock t k).1.data.lookup (k ++ "_lock"))
    (he : mc'.exp.lookup (k ++ "_lock") = (mc.AcquireLock t k).1.exp.lookup (k ++ "_lock")) :
    (t' < t + Second * 30 → (mc'.AcquireLock t' k).2 = false) ∧
    (t + Second * 30 ≤ t' → (mc'.AcquireLock t' k).2 = true) := by
  have hfree := lockHeld_of_acquire_true mc t k h
  have hheld : lockHeld mc' t' k = decide (t' < t + Second * 30) := by
    rw [lockHeld_congr _ mc' t' k hd he]
    exact lockHeld_after_free_acquire mc t t' k hfree
  constructor
  · intro hlt
    have hh : lockHeld mc' t' k = true := by
      rw [hheld]; exact decide_eq_true hlt
    rw [MockCache.AcquireLock_of_held _ t' k hh]
  · intro hge
    have hh : lockHeld mc' t' k = false := by
      rw [hheld]; exact decide_eq_false (not_lt.mpr hge)
    rw [MockCache.AcquireLock_of_free _ t' k hh]

/-- C16 at a concrete input: a lock acquired on a fresh store at instant 0 is
refused one nanosecond before 30 s, also after a `Set` of another key, and
granted at 30 s. -/
theorem c16_lease_is_thirty_seconds_witness :
    (MockCache.AcquireLock newMockCache 0 "job").2 = true ∧
    (((MockCache.AcquireLock newMockCache 0 "job").1.Set 1 "other" (Value.str "v") 0).1.AcquireLock
        29999999999 "job").2 = false ∧
    ((MockCache.AcquireLock newMockCache 0 "job").1.AcquireLock 30000000000 "job").2 = true :=
  ⟨by decide,
   (c16_lease_is_thirty_seconds newMockCache
      ((MockCache.AcquireLock newMockCache 0 "job").1.Set 1 "other" (Value.str "v") 0).1
      "job" 0 29999999999 (by decide) (by decide) (by decide)).1 (by decide),
   (c16_lease_is_thirty_seconds newMockCache (MockCache.AcquireLock newMockCache 0 "job").1
      "job" 0 30000000000 (by decide) rfl rfl).2 (by decide)⟩

/-- C17: on the input ("k" set to "old" at instant 0 with ttl 5, then
`SetNX("k", "new", 0)` at instant 10, when the old entry is expired) `SetNX`
writes "new" and the expiration 5 of the old entry stays under "k"; the
`Get("k")` at instant 11 removes the entry, so "k" is not found present. -/
theorem c17_setNX_keeps_expired_expiration :
    (MockCache.Set newMockCache 0 "k" (Value.str "old") 5).1.exp.lookup "k" = some 5 ∧
    (MockCache.SetNX (MockCache.Set newMockCache 0 "k" (Value.str "old") 5).1
        10 "k" (Value.str "new") 0).1.data.lookup "k" = some "new" ∧
    (MockCache.SetNX (MockCache.Set newMockCache 0 "k" (Value.str "old") 5).1
        10 "k" (Value.str "new") 0).1.exp.lookup "k" = some 5 ∧
    (MockCache.Get (MockCache.SetNX (MockCache.Set newMockCache 0 "k" (Value.str "old") 5).1
        10 "k" (Value.str "new") 0).1 11 "k").1.data.lookup "k" = none := by
  decide

/-! ## Lazy purge on read -/

/-- C18: for every store, instant and key `k`: a `Get(k)` at or after the
expiration of a stored `k` leaves no value and no expiration under `k`; a
`Get(k)` of an absent key, of a key with no expiration, or strictly before the
expiration of `k` leaves the store as it was; and in every case every other key
keeps its value and expiration and the hash entries are untouched. -/
theorem c18_get_purges_only_the_expired_key (mc : MockCache) (now : Time) (k : String) :
    (∀ v e, mc.data.lookup k = some v → mc.exp.lookup k = some e → e ≤ now →
      (mc.Get now k).1.data.lookup k = none ∧ (mc.Get now k).1.exp.lookup k = none) ∧
    (mc.data.lookup k = none → (mc.Get now k).1 = mc) ∧
    (mc.exp.lookup k = none → (mc.Get now k).1 = mc) ∧
    (∀ e, mc.exp.lookup k = some e → now < e → (mc.Get now k).1 = mc) ∧
    (∀ k', k' ≠ k →
      (mc.Get now k).1.data.lookup k' = mc.data.lookup k' ∧
      (mc.Get now k).1.exp.lookup k' = mc.exp.lookup k') ∧
    (mc.Get now k).1.hashMap = mc.hashMap := by
  cases hd : mc.data.lookup k with
  | none =>
    have hg : (mc.Get now k).1 = mc := by simp [MockCache.Get, hd]
    rw [hg]
    exact ⟨fun v e h => Option.noConfusion h, fun _ => rfl, fun _ => rfl, fun _ _ _ => rfl,
      fun _ _ => ⟨rfl, rfl⟩, rfl⟩
  | some v0 =>
    cases he : mc.exp.lookup k with
    | none =>
      have hg : (mc.Get now k).1 = mc := by simp [MockCache.Get, hd, he]
      rw [hg]
      exact ⟨fun v e _ h => Option.noConfusion h, fun _ => rfl, fun _ => rfl,
        fun _ _ _ => rfl, fun _ _ => ⟨rfl, rfl⟩, rfl⟩
    | some e0 =>
      by_cases hlt : now < e0
      · have hg : (mc.Get now k).1 = mc := by simp [MockCache.Get, hd, he, hlt]
        rw [hg]
        refine ⟨?_, fun _ => rfl, fun _ => rfl, fun _ _ _ => rfl, fun _ _ => ⟨rfl, rfl⟩, rfl⟩
        intro v e _ hee hle
        have : e = e0 := (Option.some.inj hee).symm
        subst this
        exact absurd hlt (not_lt.mpr hle)
      · have hg : (mc.Get now k).1
            = { mc with data := mc.data.delete k, exp := mc.exp.delete k } := by
          simp [MockCache.Get, hd, he, hlt]
        rw [hg]
        refine ⟨fun _ _ _ _ _ => ⟨GoMap.lookup_delete_self _ _, GoMap.lookup_delete_self _ _⟩,
          fun h => Option.noConfusion h, fun h => Option.noConfusion h, ?_, ?_, rfl⟩
        · intro e hee hlt'
          have : e = e0 := (Option.some.inj hee).symm
          subst this
          exact absurd hlt' hlt
        · intro k' hk
          exact ⟨GoMap.lookup_delete_ne _ hk, GoMap.lookup_delete_ne _ hk⟩

/-- C18 at a concrete input: "k" holds "v" with expiration 5 and "j" holds "w";
the `Get("k")` at instant 5 leaves no value under "k" and keeps "j", and the
`Get("k")` at instant 4 leaves the store as it was. -/
theorem c18_get_purges_only_the_expired_key_witness :
    (MockCache.Get { data := [("k", "v"), ("j", "w")], exp := [("k", 5)], hashMap := [] }
        5 "k").1.data.lookup "k" = none ∧
    (MockCache.Get { data := [("k", "v"), ("j", "w")], exp := [("k", 5)], hashMap := [] }
        5 "k").1.data.lookup "j" = some "w" ∧
    (MockCache.Get { data := [("k", "v"), ("j", "w")], exp := [("k", 5)], hashMap := [] }
        4 "k").1 = { data := [("k", "v"), ("j", "w")], exp := [("k", 5)], hashMap := [] } :=
  ⟨((c18_get_purges_only_the_expired_key _ 5 "k").1 "v" 5 (by decide) (by decide)
      (by decide)).1,
   ((c18_get_purges_only_the_expired_key
      { data := [("k", "v"), ("j", "w")], exp := [("k", 5)], hashMap := [] } 5 "k").2.2.2.2.1
      "j" (by decide)).1,
   (c18_get_purges_only_the_expired_key _ 4 "k").2.2.2.1 5 (by decide) (by decide)⟩

/-! ## The store invariant -/

/-- C19: in every store reached from `newMockCache()` by any sequence of `Get`,
`Set`, `Del`, `Scan`, `SetNX`, `Expire`, `GetOrSet`, `DeleteKeysWithPrefix`,
`AcquireLock`, `ReleaseLock`, `HIncrBy` and `HGetAll` calls, every key that has
an expiration has a value. -/
theorem c19_no_expiration_without_value (ops : List Op) (k : String) (e : Time)
    (h : (run newMockCache ops).exp.lookup k = some e) :
    ∃ v, (run newMockCache ops).data.lookup k = some v := by
  have hinv : NoOrphan (run newMockCache ops) := NoOrphan_run ops newMockCache NoOrphan_new
  cases hd : (run newMockCache ops).data.lookup k with
  | some v => exact ⟨v, rfl⟩
  | none =>
    rw [hinv k hd] at h
    exact Option.noConfusion h

/-- C19 at a concrete input: after `Set("k", "v", 5)` at instant 0,
`Set("j", "w", 0)`, `Expire("j", 3)` at instant 1 and `Del("k")`, the key "j"
has the expiration 4 and has a value. -/
theorem c19_no_expiration_without_value_witness :
    (run newMockCache
        [Op.set 0 "k" (Value.str "v") 5, Op.set 0 "j" (Value.str "w") 0,
         Op.expire 1 "j" 3, Op.del ["k"]]).exp.lookup "j" = some 4 ∧
    ∃ v, (run newMockCache
        [Op.set 0 "k" (Value.str "v") 5, Op.set 0 "j" (Value.str "w") 0,
         Op.expire 1 "j" 3, Op.del ["k"]]).data.lookup "j" = some v :=
  ⟨by decide, c19_no_expiration_without_value _ "j" 4 (by decide)⟩

/-! ## The two comma checks -/

/-- C20: on the input "nodes.parent_id, ,nodes.position, ,nodes.created_at"
the `containsDoubleComma` of package `pg` returns false and the
`containsDoubleComma` of `sql_validator.go` returns true; on "a,,b" the first
returns true and the second false. The two functions differ. -/
theorem c20_the_two_containsDoubleComma_differ :
    pg.containsDoubleComma (bytesOf "nodes.parent_id, ,nodes.position, ,nodes.created_at")
      = Outcome.value false ∧
    main.containsDoubleComma (bytesOf "nodes.parent_id, ,nodes.position, ,nodes.created_at")
      = true ∧
    pg.containsDoubleComma (bytesOf "a,,b") = Outcome.value true ∧
    main.containsDoubleComma (bytesOf "a,,b") = false := by
  decide

theorem findCommaPositions_loop_eq (s : GoString) :
    ∀ (fuel i : Nat) (positions : List Nat), s.length ≤ fuel + i → 1 ≤ fuel →
      main.findCommaPositions.loop s fuel i positions
        = Outcome.value
            (positions ++ (List.range' i (s.length - 1 - i)).filter (commaSpaceCommaAt s)) := by
  intro fuel
  induction fuel with
  | zero => intro i ps _ h; omega
  | succ fuel ih =>
    intro i ps hlen _
    unfold main.findCommaPositions.loop
    by_cases hi : (i : Int) < (s.length : Int) - 1
    · have hi' : i + 1 < s.length := by omega
      have hrec : ∀ ps', main.findCommaPositions.loop s fuel (i + 1) ps'
          = Outcome.value (ps' ++
              (List.range' (i + 1) (s.length - 1 - (i + 1))).filter (commaSpaceCommaAt s)) :=
        fun ps' => ih (i + 1) ps' (by omega) (by omega)
      have hrange : List.range' i (s.length - 1 - i)
          = i :: List.range' (i + 1) (s.length - 1 - (i + 1)) := by
        have : s.length - 1 - i = (s.length - 1 - (i + 1)) + 1 := by omega
        rw [this, List.range'_succ]
      have hnone0 : s.get? i ≠ none := by
        rw [Ne, List.get?_eq_none]; omega
      have hnone1 : s.get? (i + 1) ≠ none := by
        rw [Ne, List.get?_eq_none]; omega
      rw [if_pos hi, hrange, List.filter_cons]
      simp only [hrec]
      cases h0 : s.get? i with
      | none => exact absurd h0 hnone0
      | some a =>
        cases h1 : s.get? (i + 1) with
        | none => exact absurd h1 hnone1
        | some b =>
          by_cases ha : a = 44
          · by_cases hb : b = 32
            · by_cases h2 : i + 2 < s.length
              · cases h2' : s.get? (i + 2) with
                | none =>
                  rw [List.get?_eq_none] at h2'
                  omega
                | some c =>
                  by_cases hc : c = 44
                  · have hP : commaSpaceCommaAt s i = true := by
                      unfold commaSpaceCommaAt
                      rw [h0, h1, h2']
                      simp [ha, hb, hc]
                    simp [hP, ha, hb, hc, hi', h2]
                  · have hP : commaSpaceCommaAt s i = false := by
                      unfold commaSpaceCommaAt
                      rw [h0, h1, h2']
                      simp [hc]
                    simp [hP, ha, hb, hc, hi', h2]
              · have hP : commaSpaceCommaAt s i = false := by
                  have h2' : s.get? (i + 2) = none := by
                    rw [List.get?_eq_none]; omega
                  unfold commaSpaceCommaAt
                  rw [h0, h1, h2']
                  simp
                simp [hP, ha, hb, hi', h2]
            · have hP : commaSpaceCommaAt s i = false := by
                unfold commaSpaceCommaAt
                rw [h0, h1]
                simp [hb]
              simp [hP, ha, hb, hi']
          · have hP : commaSpaceCommaAt s i = false := by
              unfold commaSpaceCommaAt
              rw [h0]
              simp [ha]
            simp [hP, ha, hi']
    · have hz : s.length - 1 - i = 0 := by omega
      rw [if_neg hi, hz]
      simp
theorem findCommaPositions_eq (s : GoString) :
    main.findCommaPositions s
      = Outcome.value ((List.range' 0 (s.length - 1)).filter (commaSpaceCommaAt s)) := by
  unfold main.findCommaPositions
  rw [findCommaPositions_loop_eq s (s.length + 1) 0 [] (by omega) (by omega)]
  simp

theorem commaSpaceCommaAt_lt (s : GoString) (i : Nat) (h : commaSpaceCommaAt s i = true) :
    i + 2 < s.length := by
  unfold commaSpaceCommaAt at h
  simp only [Bool.and_eq_true, decide_eq_true_eq] at h
  by_contra hlt
  have hnone : s.get? (i + 2) = none := by
    rw [List.get?_eq_none]; omega
  rw [hnone] at h
  exact Option.noConfusion h.2

theorem commaSpaceCommaAt_iff (s : GoString) (i : Nat) :
    commaSpaceCommaAt s i = true
      ↔ s.get? i = some 44 ∧ s.get? (i + 1) = some 32 ∧ s.get? (i + 2) = some 44 := by
  unfold commaSpaceCommaAt
  simp only [Bool.and_eq_true, decide_eq_true_eq, and_assoc]

theorem isPrefixOf_commaSpaceComma (t : GoString) :
    List.isPrefixOf (bytesOf ", ,") t = commaSpaceCommaAt t 0 := by
  have hb : bytesOf ", ," = [44, 32, 44] := by decide
  rw [hb]
  rcases t with _ | ⟨a, _ | ⟨b, _ | ⟨c, r⟩⟩⟩
  · simp [commaSpaceCommaAt, List.isPrefixOf]
  · simp [commaSpaceCommaAt, List.isPrefixOf]
  · simp [commaSpaceCommaAt, List.isPrefixOf]
  · have e1 : (44 == a) = decide (a = 44) := by
      by_cases h : a = 44
      · subst h; rfl
      · have h' : ¬ 44 = a := fun e => h e.symm
        simp [h, h']
    have e2 : (32 == b) = decide (b = 32) := by
      by_cases h : b = 32
      · subst h; rfl
      · have h' : ¬ 32 = b := fun e => h e.symm
        simp [h, h']
    have e3 : (44 == c) = decide (c = 44) := by
      by_cases h : c = 44
      · subst h; rfl
      · have h' : ¬ 44 = c := fun e => h e.symm
        simp [h, h']
    simp only [commaSpaceCommaAt, List.isPrefixOf, List.get?, e1, e2, e3, Option.some.injEq,
      Bool.and_true, Bool.and_assoc]

theorem stringsContains_iff (s : GoString) :
    stringsContains s (bytesOf ", ,") = true ↔ ∃ i, commaSpaceCommaAt s i = true := by
  induction s with
  | nil =>
    have hb : bytesOf ", ," = [44, 32, 44] := by decide
    simp [stringsContains, hb, commaSpaceCommaAt]
  | cons c cs ih =>
    have hsucc : ∀ j, commaSpaceCommaAt (c :: cs) (j + 1) = commaSpaceCommaAt cs j :=
      fun j => rfl
    unfold stringsContains
    rw [Bool.or_eq_true, isPrefixOf_commaSpaceComma, ih]
    constructor
    · rintro (h | ⟨j, hj⟩)
      · exact ⟨0, h⟩
      · exact ⟨j + 1, by rw [hsucc]; exact hj⟩
    · rintro ⟨i, hi⟩
      cases i with
      | zero => exact Or.inl hi
      | succ j => exact Or.inr ⟨j, by rw [← hsucc]; exact hi⟩

/-- C21: for every string `s`, the empty one included, `findCommaPositions(s)`
returns (no index is out of range and the loop ends); the slice it returns is
strictly increasing and holds exactly the indices `i` at which the bytes
`s[i]`, `s[i+1]`, `s[i+2]` are `','`, `' '`, `','`; and it is non-empty exactly
when the `containsDoubleComma` of `sql_validator.go` returns true on `s`. -/
theorem c21_findCommaPositions_lists_the_comma_space_comma_indices (s : GoString) :
    ∃ positions : List Nat,
      main.findCommaPositions s = Outcome.value positions ∧
      positions.Pairwise (fun i j => i < j) ∧
      (∀ i, i ∈ positions ↔
        s.get? i = some 44 ∧ s.get? (i + 1) = some 32 ∧ s.get? (i + 2) = some 44) ∧
      (positions ≠ [] ↔ main.containsDoubleComma s = true) := by
  have hmem : ∀ i, i ∈ (List.range' 0 (s.length - 1)).filter (commaSpaceCommaAt s)
      ↔ commaSpaceCommaAt s i = true := by
    intro i
    rw [List.mem_filter, List.mem_range'_1]
    constructor
    · exact fun h => h.2
    · intro h
      have := commaSpaceCommaAt_lt s i h
      exact ⟨⟨Nat.zero_le i, by omega⟩, h⟩
  refine ⟨_, findCommaPositions_eq s, ?_, ?_, ?_⟩
  · exact List.Pairwise.filter _ (List.pairwise_lt_range' 0 (s.length - 1))
  · intro i
    rw [hmem, commaSpaceCommaAt_iff]
  · unfold main.containsDoubleComma
    rw [stringsContains_iff, ← List.length_pos, List.length_pos_iff_exists_mem]
    constructor
    · rintro ⟨i, hi⟩
      exact ⟨i, (hmem i).mp hi⟩
    · rintro ⟨i, hi⟩
      exact ⟨i, (hmem i).mpr hi⟩

end PandaWiki
